import Mathlib

set_option maxRecDepth 100000

/-!
Verification of the sol-feed service (src/server.js).

The development shallowly embeds the pure core of the service: JSON-like
record values, the numeric coercion `toNum`, the dedup key function `hash`
(SHA-1 over the selected key material, implemented bit-for-bit on `Nat`),
the array-shape resolver `pickFirstArray`, the filters `passPairFilters` /
`passTradeFilters` / `tradeUsd`, the ring buffer `pushRing` / `sliceLast`,
the per-category ingestion loop of `pollPairs` / `pollTrades`, the backoff
update, and the endpoint resolver `findWorkingUrl` with the URL pinning of
`pollOnce`.

Modelling conventions: JavaScript numbers are modelled as exact rationals
(`Q`) extended with NaN and the two infinities (`JNum`); float rounding,
overflow and exponential-notation string formatting are not modelled.
Objects are association lists whose list order is the object's key
insertion/enumeration order.  A missing property is `Option.none`.
-/

namespace SolFeed

/-- Exact rational value of a finite JavaScript number: integer numerator
and natural denominator (positive for every value the embedding builds). -/
structure Q where
  num : Int
  den : Nat
deriving DecidableEq, Repr

namespace Q

/-- Normalize a fraction by dividing out the gcd of numerator and
denominator. -/
def norm (a : Q) : Q :=
  let g := a.num.natAbs.gcd a.den
  if g = 0 then ⟨0, 1⟩ else ⟨a.num / (g : Int), a.den / g⟩

/-- Rational from an integer. -/
def ofInt (n : Int) : Q := ⟨n, 1⟩

/-- Zero. -/
def zero : Q := ⟨0, 1⟩

/-- Multiplication (normalized). -/
def mul (a b : Q) : Q := norm ⟨a.num * b.num, a.den * b.den⟩

/-- Subtraction (normalized). -/
def sub (a b : Q) : Q := norm ⟨a.num * (b.den : Int) - b.num * (a.den : Int), a.den * b.den⟩

/-- Division by a positive natural number (normalized). -/
def divN (a : Q) (n : Nat) : Q := norm ⟨a.num, a.den * n⟩

/-- Strict less-than by cross multiplication. -/
def blt (a b : Q) : Bool := decide (a.num * (b.den : Int) < b.num * (a.den : Int))

/-- Less-or-equal by cross multiplication. -/
def ble (a b : Q) : Bool := decide (a.num * (b.den : Int) ≤ b.num * (a.den : Int))

/-- Negation. -/
def neg (a : Q) : Q := ⟨-a.num, a.den⟩

end Q

/-- A JavaScript number: a finite rational, NaN, or one of the infinities. -/
inductive JNum where
  | fin (q : Q)
  | nan
  | inf
  | ninf
deriving DecidableEq, Repr

namespace JNum

/-- The JavaScript `Number.isFinite`. -/
def isFinite : JNum → Bool
  | .fin _ => true
  | _ => false

/-- The JavaScript `<` comparison (false whenever NaN is involved). -/
def lt : JNum → JNum → Bool
  | .nan, _ => false
  | _, .nan => false
  | .fin a, .fin b => Q.blt a b
  | .fin _, .inf => true
  | .ninf, .fin _ => true
  | .ninf, .inf => true
  | _, _ => false

/-- The JavaScript `<=` comparison (false whenever NaN is involved). -/
def le : JNum → JNum → Bool
  | .nan, _ => false
  | _, .nan => false
  | .fin a, .fin b => Q.ble a b
  | .ninf, _ => true
  | _, .inf => true
  | _, _ => false

/-- The JavaScript `*` on numbers. -/
def mul : JNum → JNum → JNum
  | .nan, _ => .nan
  | _, .nan => .nan
  | .fin a, .fin b => .fin (Q.mul a b)
  | .inf, .fin b => if b.num = 0 then .nan else if 0 < b.num then .inf else .ninf
  | .fin a, .inf => if a.num = 0 then .nan else if 0 < a.num then .inf else .ninf
  | .ninf, .fin b => if b.num = 0 then .nan else if 0 < b.num then .ninf else .inf
  | .fin a, .ninf => if a.num = 0 then .nan else if 0 < a.num then .ninf else .inf
  | .inf, .inf => .inf
  | .inf, .ninf => .ninf
  | .ninf, .inf => .ninf
  | .ninf, .ninf => .inf

end JNum

/-- A JSON-like JavaScript value.  Object fields are listed in key
insertion order, which is also `Object.keys` enumeration order. -/
inductive JsVal where
  | null
  | bool (b : Bool)
  | num (n : JNum)
  | str (s : String)
  | arr (elems : List JsVal)
  | obj (fields : List (String × JsVal))

/-- Property lookup on an association list (first binding wins; actual
JavaScript objects have distinct keys). -/
def lookupKey (k : String) : List (String × JsVal) → Option JsVal
  | [] => none
  | (k', v) :: rest => if k' = k then some v else lookupKey k rest

/-- Property access `v?.[k]`: `none` (undefined) unless `v` is an object
with the key. -/
def jsGet : JsVal → String → Option JsVal
  | .obj fs, k => lookupKey k fs
  | _, _ => none

/-- JavaScript truthiness. -/
def truthy : JsVal → Bool
  | .null => false
  | .bool b => b
  | .num (.fin q) => !(q.num = 0)
  | .num .nan => false
  | .num _ => true
  | .str s => !(s = "")
  | .arr _ => true
  | .obj _ => true

/-! ### SHA-1, as used by `crypto.createHash('sha1')...digest('hex')` -/

/-- Truncate to 32 bits. -/
def w32 (x : Nat) : Nat := x % 4294967296

/-- Rotate a 32-bit word left by `n`. -/
def rotl (n x : Nat) : Nat := w32 ((x <<< n) ||| (x >>> (32 - n)))

/-- Round constant. -/
def sha1K (t : Nat) : Nat :=
  if t < 20 then 0x5A827999 else if t < 40 then 0x6ED9EBA1
  else if t < 60 then 0x8F1BBCDC else 0xCA62C1D6

/-- Round function. -/
def sha1F (t b c d : Nat) : Nat :=
  if t < 20 then (b &&& c) ||| ((0xFFFFFFFF ^^^ b) &&& d)
  else if t < 40 then b ^^^ c ^^^ d
  else if t < 60 then (b &&& c) ||| (b &&& d) ||| (c &&& d)
  else b ^^^ c ^^^ d

/-- Big-endian byte expansion of `v` to `k` bytes. -/
def beBytes : Nat → Nat → List Nat
  | 0, _ => []
  | k + 1, v => beBytes k (v >>> 8) ++ [v &&& 0xFF]

/-- Merkle–Damgård padding of a byte message. -/
def sha1Pad (msg : List Nat) : List Nat :=
  let len := msg.length
  let r := (len + 1) % 64
  let zeros := if r ≤ 56 then 56 - r else 56 + 64 - r
  msg ++ [0x80] ++ List.replicate zeros 0 ++ beBytes 8 (8 * len)

/-- Big-endian word from bytes. -/
def beWord (bs : List Nat) : Nat := bs.foldl (fun acc b => acc * 256 + b) 0

/-- The sixteen 32-bit words of one 64-byte chunk. -/
def chunkWords (bs : List Nat) : List Nat :=
  (List.range 16).map (fun i => beWord ((bs.drop (4 * i)).take 4))

/-- Extend the message schedule by `n` additional words. -/
def extendW (ws : List Nat) : Nat → List Nat
  | 0 => ws
  | n + 1 =>
    let prev := extendW ws n
    let l := prev.length
    prev ++ [rotl 1 ((prev.getD (l - 3) 0) ^^^ (prev.getD (l - 8) 0) ^^^
                     (prev.getD (l - 14) 0) ^^^ (prev.getD (l - 16) 0))]

/-- Internal SHA-1 state. -/
structure Sha1State where
  a : Nat
  b : Nat
  c : Nat
  d : Nat
  e : Nat
deriving DecidableEq, Repr

/-- One compression round. -/
def sha1Round (s : Sha1State) (tw : Nat × Nat) : Sha1State :=
  let tmp := w32 (rotl 5 s.a + sha1F tw.1 s.b s.c s.d + s.e + sha1K tw.1 + tw.2)
  ⟨tmp, s.a, rotl 30 s.b, s.c, s.d⟩

/-- Process one 64-byte chunk. -/
def sha1Chunk (h : Sha1State) (chunk : List Nat) : Sha1State :=
  let ws := extendW (chunkWords chunk) 64
  let s := (ws.enum).foldl sha1Round h
  ⟨w32 (h.a + s.a), w32 (h.b + s.b), w32 (h.c + s.c), w32 (h.d + s.d), w32 (h.e + s.e)⟩

/-- Split a padded message into `n` chunks of 64 bytes. -/
def splitChunks : Nat → List Nat → List (List Nat)
  | 0, _ => []
  | n + 1, bs => bs.take 64 :: splitChunks n (bs.drop 64)

/-- SHA-1 digest of a byte message, as a 160-bit natural number. -/
def sha1Core (msg : List Nat) : Nat :=
  let padded := sha1Pad msg
  let h := (splitChunks (padded.length / 64) padded).foldl sha1Chunk
    ⟨0x67452301, 0xEFCDAB89, 0x98BADCFE, 0x10325476, 0xC3D2E1F0⟩
  (((h.a * 4294967296 + h.b) * 4294967296 + h.c) * 4294967296 + h.d) * 4294967296 + h.e

/-- Lower-case hex digit. -/
def hexDigit (n : Nat) : Char := if n < 10 then Char.ofNat (48 + n) else Char.ofNat (87 + n)

/-- Fixed-width lower-case hex rendering. -/
def hexN : Nat → Nat → String
  | 0, _ => ""
  | k + 1, v => hexN k (v >>> 4) ++ String.singleton (hexDigit (v &&& 0xF))

/-- UTF-8 encoding of one character. -/
def utf8Char (c : Char) : List Nat :=
  let n := c.toNat
  if n < 0x80 then [n]
  else if n < 0x800 then [0xC0 ||| (n >>> 6), 0x80 ||| (n &&& 0x3F)]
  else if n < 0x10000 then
    [0xE0 ||| (n >>> 12), 0x80 ||| ((n >>> 6) &&& 0x3F), 0x80 ||| (n &&& 0x3F)]
  else
    [0xF0 ||| (n >>> 18), 0x80 ||| ((n >>> 12) &&& 0x3F),
     0x80 ||| ((n >>> 6) &&& 0x3F), 0x80 ||| (n &&& 0x3F)]

/-- UTF-8 encoding of a string. -/
def utf8Bytes (s : String) : List Nat := (s.data.map utf8Char).flatten

/-- Hex SHA-1 digest of a string, as `crypto.createHash('sha1')` produces. -/
def sha1Hex (s : String) : String := hexN 40 (sha1Core (utf8Bytes s))

/-! ### String rendering: `JSON.stringify` and `String(...)` -/

/-- Decimal digits of the fractional part `r / den`, with fuel.  JavaScript
floats are dyadic rationals, whose expansions terminate. -/
def fracDigits (den : Nat) : Nat → Nat → String
  | _, 0 => ""
  | 0, _ => ""
  | fuel + 1, r =>
    let r10 := r * 10
    String.singleton (Char.ofNat (48 + r10 / den)) ++ fracDigits den fuel (r10 % den)

/-- Decimal rendering of a finite number, as JavaScript renders small
numbers (exponential-notation thresholds are not modelled). -/
def Q.repr10 (a : Q) : String :=
  let b := a.norm
  let sign := if b.num < 0 then "-" else ""
  let n := b.num.natAbs
  if b.den = 1 then sign ++ toString n
  else sign ++ toString (n / b.den) ++ "." ++ fracDigits b.den 100 (n % b.den)

/-- JSON string escaping for one character. -/
def escChar (c : Char) : String :=
  if c = '"' then "\\\""
  else if c = '\\' then "\\\\"
  else if c = '\n' then "\\n"
  else if c = '\r' then "\\r"
  else if c = '\t' then "\\t"
  else if c.toNat = 8 then "\\b"
  else if c.toNat = 12 then "\\f"
  else if c.toNat < 32 then "\\u00" ++ hexN 2 c.toNat
  else String.singleton c

/-- A JSON string literal. -/
def quoteStr (s : String) : String :=
  "\"" ++ (s.data.map escChar).foldl (fun a b => a ++ b) "" ++ "\""

mutual

/-- The JavaScript `JSON.stringify`, with object keys in enumeration order (non-finite
numbers serialize as `null`). -/
def stringify : JsVal → String
  | .null => "null"
  | .bool b => if b then "true" else "false"
  | .num (.fin q) => q.repr10
  | .num _ => "null"
  | .str s => quoteStr s
  | .arr xs => "[" ++ stringifyElems xs ++ "]"
  | .obj fs => "\x7b" ++ stringifyFields fs ++ "\x7d"

/-- Comma-joined serializations of array elements. -/
def stringifyElems : List JsVal → String
  | [] => ""
  | [x] => stringify x
  | x :: y :: xs => stringify x ++ "," ++ stringifyElems (y :: xs)

/-- Comma-joined serializations of object fields. -/
def stringifyFields : List (String × JsVal) → String
  | [] => ""
  | [(k, v)] => quoteStr k ++ ":" ++ stringify v
  | (k, v) :: f :: fs => quoteStr k ++ ":" ++ stringify v ++ "," ++ stringifyFields (f :: fs)

end

mutual

/-- The JavaScript `String(...)` coercion. -/
def jsToString : JsVal → String
  | .null => "null"
  | .bool b => if b then "true" else "false"
  | .num (.fin q) => q.repr10
  | .num .nan => "NaN"
  | .num .inf => "Infinity"
  | .num .ninf => "-Infinity"
  | .str s => s
  | .arr xs => arrJoin xs
  | .obj _ => "[object Object]"

/-- The JavaScript `Array.prototype.toString`: elements joined by commas, with `null`
(and undefined) elements rendered as empty. -/
def arrJoin : List JsVal → String
  | [] => ""
  | [x] => match x with | .null => "" | _ => jsToString x
  | x :: y :: xs =>
    (match x with | .null => "" | _ => jsToString x) ++ "," ++ arrJoin (y :: xs)

end

/-! ### The dedup key function `hash` (src/server.js line 52) -/

/-- The identity fields probed by `hash`, in source order:
`v?.txHash || v?.signature || v?.tx || v?.pairAddress || v?.mint`. -/
def idKeys : List String := ["txHash", "signature", "tx", "pairAddress", "mint"]

/-- First truthy value of the given properties — the semantics of the
`||` chain over optional property accesses. -/
def firstTruthy (v : JsVal) (keys : List String) : Option JsVal :=
  keys.findSome? (fun k =>
    match jsGet v k with
    | some w => if truthy w then some w else none
    | none => none)

/-- The string fed to SHA-1: `String(s)` for the first truthy identity
field, else `JSON.stringify(v)`. -/
def hashInput (v : JsVal) : String :=
  match firstTruthy v idKeys with
  | some w => jsToString w
  | none => stringify v

/-- The function `hash(v)` from src/server.js line 52. -/
def hash (v : JsVal) : String := sha1Hex (hashInput v)

/-! ### The `Number(...)` coercion and `toNum` (src/server.js line 53) -/

/-- JavaScript string whitespace for `Number(...)` trimming. -/
def isWs (c : Char) : Bool :=
  c == ' ' || c == '\t' || c == '\n' || c == '\r' || c.toNat = 11 ||
  c.toNat = 12 || c.toNat = 0xA0 || c.toNat = 0xFEFF

/-- Trim whitespace from both ends. -/
def trimWs (cs : List Char) : List Char :=
  ((cs.dropWhile isWs).reverse.dropWhile isWs).reverse

/-- Numeric value of a digit list. -/
def digitsToNat (cs : List Char) : Nat := cs.foldl (fun a c => a * 10 + (c.toNat - 48)) 0

/-- Hex digit value. -/
def hexVal (c : Char) : Option Nat :=
  if c.isDigit then some (c.toNat - 48)
  else if 'a' ≤ c ∧ c ≤ 'f' then some (c.toNat - 87)
  else if 'A' ≤ c ∧ c ≤ 'F' then some (c.toNat - 55)
  else none

/-- Value of a hex digit list. -/
def hexToNat (cs : List Char) : Option Nat :=
  cs.foldl (fun acc c =>
    match acc, hexVal c with
    | some a, some v => some (a * 16 + v)
    | _, _ => none) (some 0)

/-- Parse an unsigned decimal numeric literal (digits, optional fraction,
optional exponent), exactly (no float rounding). -/
def parseDec (cs : List Char) : JNum :=
  let me := cs.span (fun c => !(c == 'e' || c == 'E'))
  let expPart : Option Int :=
    match me.2 with
    | [] => some 0
    | _ :: ecs =>
      match ecs with
      | '+' :: ds => if !ds.isEmpty && ds.all Char.isDigit then some (digitsToNat ds) else none
      | '-' :: ds =>
        if !ds.isEmpty && ds.all Char.isDigit then some (-(digitsToNat ds : Int)) else none
      | ds => if !ds.isEmpty && ds.all Char.isDigit then some (digitsToNat ds) else none
  let ipf := me.1.span (fun c => !(c == '.'))
  let frac : Option (List Char) :=
    match ipf.2 with
    | [] => some []
    | _ :: fs => if fs.all Char.isDigit then some fs else none
  match expPart, frac with
  | some e, some fs =>
    if ipf.1.all Char.isDigit && !(ipf.1.isEmpty && fs.isEmpty) then
      let mantN : Nat := digitsToNat (ipf.1 ++ fs)
      let scale : Int := e - fs.length
      if 0 ≤ scale then .fin (Q.norm ⟨(mantN : Int) * ((10 ^ scale.toNat : Nat) : Int), 1⟩)
      else .fin (Q.norm ⟨mantN, 10 ^ (-scale).toNat⟩)
    else .nan
  | _, _ => .nan

/-- Parse an unsigned numeric literal; hex literals are only legal when no
sign was consumed (binary/octal prefixes are not modelled). -/
def parseNoSign (cs : List Char) (allowRadix : Bool) : JNum :=
  if cs = "Infinity".data then .inf
  else
    match cs with
    | '0' :: c :: rest =>
      if allowRadix && (c == 'x' || c == 'X') then
        if rest.isEmpty then .nan
        else match hexToNat rest with
          | some v => .fin ⟨v, 1⟩
          | none => .nan
      else parseDec ('0' :: c :: rest)
    | _ => parseDec cs

/-- The coercion `Number(string)`: trim, empty is 0, optional sign, `Infinity`, hex or
decimal literal; anything else is NaN. -/
def strToNum (s : String) : JNum :=
  match trimWs s.data with
  | [] => .fin ⟨0, 1⟩
  | '+' :: rest => parseNoSign rest false
  | '-' :: rest =>
    match parseNoSign rest false with
    | .fin q => .fin (Q.neg q)
    | .inf => .ninf
    | r => r
  | cs => parseNoSign cs true

/-- The coercion `Number(v)` for a defined value. -/
def jsNumberVal : JsVal → JNum
  | .null => .fin ⟨0, 1⟩
  | .bool b => .fin ⟨if b then 1 else 0, 1⟩
  | .num n => n
  | .str s => strToNum s
  | .arr xs => strToNum (arrJoin xs)
  | .obj _ => .nan

/-- The coercion `Number(x)` where `x` may be undefined (`none`). -/
def jsNumber : Option JsVal → JNum
  | none => .nan
  | some v => jsNumberVal v

/-- The function `toNum(x, d)` from src/server.js line 53:
`const n = Number(x); return Number.isFinite(n) ? n : d`. -/
def toNum (x : Option JsVal) (d : JNum) : JNum :=
  let n := jsNumber x
  if n.isFinite then n else d

/-! ### `Date.parse` (ISO-8601 UTC subset) and `minutesAgo`
(src/server.js line 54) -/

/-- Leap year. -/
def isLeap (y : Nat) : Bool := y % 4 = 0 && (y % 100 ≠ 0 || y % 400 = 0)

/-- Days in a month. -/
def daysInMonth (y m : Nat) : Nat :=
  if m = 2 then (if isLeap y then 29 else 28)
  else if m = 4 ∨ m = 6 ∨ m = 9 ∨ m = 11 then 30
  else 31

/-- Days from 1970-01-01 to the given civil date (proleptic Gregorian). -/
def daysFromCivil (y m d : Int) : Int :=
  let y := y - (if m ≤ 2 then 1 else 0)
  let era := (if 0 ≤ y then y else y - 399) / 400
  let yoe := y - era * 400
  let mp := (m + 9) % 12
  let doy := (153 * mp + 2) / 5 + d - 1
  let doe := yoe * 365 + yoe / 4 - yoe / 100 + doy
  era * 146097 + doe - 719468

/-- Milliseconds within the day from an ISO time part (after the `T`),
requiring a trailing `Z`. -/
def parseTime (cs : List Char) : Option Nat :=
  match cs with
  | h1 :: h2 :: ':' :: n1 :: n2 :: rest =>
    if [h1, h2, n1, n2].all Char.isDigit then
      let hh := digitsToNat [h1, h2]
      let mm := digitsToNat [n1, n2]
      if hh < 24 ∧ mm < 60 then
        let base := hh * 3600000 + mm * 60000
        match rest with
        | ['Z'] => some base
        | ':' :: s1 :: s2 :: rest2 =>
          if [s1, s2].all Char.isDigit ∧ digitsToNat [s1, s2] < 60 then
            let sm := base + digitsToNat [s1, s2] * 1000
            match rest2 with
            | ['Z'] => some sm
            | '.' :: rest3 =>
              let dt := rest3.span Char.isDigit
              if (dt.1.length = 1 ∨ dt.1.length = 2 ∨ dt.1.length = 3) ∧ dt.2 = ['Z'] then
                some (sm + digitsToNat dt.1 * 10 ^ (3 - dt.1.length))
              else none
            | _ => none
          else none
        | _ => none
      else none
    else none
  | _ => none

/-- Epoch milliseconds of an ISO-8601 UTC timestamp
(`YYYY-MM-DD` or `YYYY-MM-DDTHH:MM[:SS[.sss]]Z`). -/
def parseIsoDate (cs : List Char) : Option Int :=
  match cs with
  | y1 :: y2 :: y3 :: y4 :: '-' :: m1 :: m2 :: '-' :: d1 :: d2 :: rest =>
    if [y1, y2, y3, y4, m1, m2, d1, d2].all Char.isDigit then
      let y := digitsToNat [y1, y2, y3, y4]
      let m := digitsToNat [m1, m2]
      let d := digitsToNat [d1, d2]
      if 1 ≤ m ∧ m ≤ 12 ∧ 1 ≤ d ∧ d ≤ daysInMonth y m then
        let base := daysFromCivil y m d * 86400000
        match rest with
        | [] => some base
        | 'T' :: tcs => (parseTime tcs).map (fun t => base + t)
        | _ => none
      else none
    else none
  | _ => none

/-- Modelled `Date.parse`: the ISO-8601 UTC subset above; every other
string yields NaN (the full implementation-defined grammar is wider). -/
def dateParse (s : String) : JNum :=
  match parseIsoDate s.data with
  | some ms => .fin ⟨ms, 1⟩
  | none => .nan

/-- The function `minutesAgo(ts)` from src/server.js line 54, with the current time
`now` (epoch milliseconds) passed explicitly.  A numeric `ts` is used as
is, anything else goes through `Date.parse(String(ts))`; non-finite
parses give `Infinity`. -/
def minutesAgo (now : Q) (ts : Option JsVal) : JNum :=
  let t : JNum :=
    match ts with
    | some (.num n) => n
    | some v => dateParse (jsToString v)
    | none => .nan
  match t with
  | .fin q => .fin ((now.sub q).divN 60000)
  | _ => .inf

/-! ### Ring buffer (src/server.js lines 51 and 161) -/

/-- Buffer capacity `MAX_KEEP`. -/
def MAX_KEEP : Nat := 200

/-- The function `pushRing(arr, item, max)`: append, then `shift()` one element off the
front if the length exceeds `max`. -/
def pushRing (arr : List α) (item : α) (max : Nat) : List α :=
  let a := arr ++ [item]
  if max < a.length then a.tail else a

/-- The function `sliceLast(arr, n) = [...arr].slice(-n).reverse()`: the last `n`
items, most recent first (`slice(-0)` is the whole array). -/
def sliceLast (arr : List α) (n : Nat) : List α :=
  if n = 0 then arr.reverse else (arr.drop (arr.length - n)).reverse

/-! ### `pickFirstArray` (src/server.js lines 70-82) -/

/-- The preferred nested key names, in source order. -/
def prefKeys : List String := ["items", "transactions", "txs", "records", "rows", "result", "list"]

/-- First preferred key bound to an array in the given object fields. -/
def firstPrefArr (fs : List (String × JsVal)) : Option (List JsVal) :=
  prefKeys.findSome? (fun k =>
    match lookupKey k fs with
    | some (.arr xs) => some xs
    | _ => none)

/-- First key (in enumeration order) bound to an array in the given
object fields. -/
def firstAnyArr (fs : List (String × JsVal)) : Option (List JsVal) :=
  (fs.map Prod.fst).findSome? (fun k =>
    match lookupKey k fs with
    | some (.arr xs) => some xs
    | _ => none)

/-- The top-level tail of `pickFirstArray`: preferred keys, then any
array-valued key, then `[]`. -/
def topLevelArr (fs : List (String × JsVal)) : List JsVal :=
  match firstPrefArr fs with
  | some xs => xs
  | none =>
    match firstAnyArr fs with
    | some xs => xs
    | none => []

/-- The function `pickFirstArray(obj)` from src/server.js lines 70-82. -/
def pickFirstArray : JsVal → List JsVal
  | .arr xs => xs
  | .obj fs =>
    (match lookupKey "data" fs with
     | some (.arr xs) => xs
     | some (.obj dfs) =>
       (match firstPrefArr dfs with
        | some xs => xs
        | none =>
          match firstAnyArr dfs with
          | some xs => xs
          | none => topLevelArr fs)
     | _ => topLevelArr fs)
  | _ => []

/-! ### Filters (src/server.js lines 84-108) -/

/-- The filter thresholds read from the environment. -/
structure Config where
  minLiqUsd : Q
  minTradeUsd : Q
  min24hVolUsd : Q
  min24hTrades : Q
  minAgeMinutes : Q

/-- A `??` chain over properties of `p` ending in a default value: the
first binding that is neither missing nor null. -/
def nullishChain (p : JsVal) (keys : List String) (dflt : JsVal) : JsVal :=
  match keys with
  | [] => dflt
  | k :: rest =>
    match jsGet p k with
    | some .null => nullishChain p rest dflt
    | some v => v
    | none => nullishChain p rest dflt

/-- A `??` chain over properties of `p` with no default: `none` when every
link is missing or null. -/
def nullishOpt (p : JsVal) (keys : List String) : Option JsVal :=
  keys.findSome? (fun k =>
    match jsGet p k with
    | some .null => none
    | some v => some v
    | none => none)

/-- The liquidity aliases of `passPairFilters`. -/
def liqKeys : List String := ["liquidityUSD", "liquidity_usd", "liquidity"]

/-- The 24h-volume aliases of `passPairFilters`. -/
def volKeys : List String := ["volumeUsd24h", "volume_usd_24h", "v24hUsd", "v24hUSD"]

/-- The 24h-trade-count aliases of `passPairFilters`. -/
def tradesKeys : List String := ["transaction_count_24h", "trades24h", "t24h"]

/-- The creation-timestamp aliases of `passPairFilters`. -/
def createdKeys : List String := ["created_at", "createdAt", "listedAt", "added_time", "launchAt"]

/-- The extracted liquidity of a pair record:
`toNum(p.liquidityUSD ?? p.liquidity_usd ?? p.liquidity ?? 0)`. -/
def pairLiq (p : JsVal) : JNum :=
  toNum (some (nullishChain p liqKeys (.num (.fin ⟨0, 1⟩)))) (.fin ⟨0, 1⟩)

/-- The extracted 24h volume of a pair record. -/
def pairVol24 (p : JsVal) : JNum :=
  toNum (some (nullishChain p volKeys (.num (.fin ⟨0, 1⟩)))) (.fin ⟨0, 1⟩)

/-- The extracted 24h trade count of a pair record. -/
def pairTrades24 (p : JsVal) : JNum :=
  toNum (some (nullishChain p tradesKeys (.num (.fin ⟨0, 1⟩)))) (.fin ⟨0, 1⟩)

/-- The extracted creation timestamp of a pair record (may be absent). -/
def pairCreated (p : JsVal) : Option JsVal := nullishOpt p createdKeys

/-- The function `passPairFilters(p)` from src/server.js lines 84-94. -/
def passPairFilters (cfg : Config) (now : Q) (p : JsVal) : Bool :=
  if JNum.lt (pairLiq p) (.fin cfg.minLiqUsd) then false
  else if JNum.lt (pairVol24 p) (.fin cfg.min24hVolUsd) then false
  else if JNum.lt (pairTrades24 p) (.fin cfg.min24hTrades) then false
  else if Q.blt ⟨0, 1⟩ cfg.minAgeMinutes &&
          JNum.lt (minutesAgo now (pairCreated p)) (.fin cfg.minAgeMinutes) then false
  else true

/-- The USD candidate keys of `tradeUsd`, in source order
(src/server.js lines 97-101). -/
def usdKeys : List String :=
  ["volumeUSD", "volume_usd", "usd_volume", "amountUSD", "amount_usd", "usdAmount",
   "usd_value", "value_usd", "quoteUsd", "baseUsd", "usd", "sizeUsd", "notionalUsd",
   "quote_amount_usd", "base_amount_usd", "buy_usd", "sell_usd", "quoteValueUsd",
   "baseValueUsd"]

/-- The quantity aliases of the `tradeUsd` fallback. -/
def qtyKeys : List String := ["amount", "size", "qty", "quoteAmount", "baseAmount"]

/-- The price aliases of the `tradeUsd` fallback. -/
def pxKeys : List String := ["price", "avgPrice", "p", "quotePrice", "avg_price"]

/-- The `qty * px` fallback of `tradeUsd` (src/server.js lines 103-106):
zero when the product is not finite. -/
def tradeUsdFallback (t : JsVal) : JNum :=
  let qty := toNum (some (nullishChain t qtyKeys (.num (.fin ⟨0, 1⟩)))) (.fin ⟨0, 1⟩)
  let px := toNum (some (nullishChain t pxKeys (.num (.fin ⟨0, 1⟩)))) (.fin ⟨0, 1⟩)
  let v := JNum.mul qty px
  if v.isFinite then v else .fin ⟨0, 1⟩

/-- The key loop of `tradeUsd`: return the first candidate whose coerced
value is strictly positive, else the fallback. -/
def tradeUsdLoop (t : JsVal) : List String → JNum
  | [] => tradeUsdFallback t
  | k :: rest =>
    let v := toNum (jsGet t k) (.fin ⟨0, 1⟩)
    if JNum.lt (.fin ⟨0, 1⟩) v then v else tradeUsdLoop t rest

/-- The function `tradeUsd(t)` from src/server.js lines 96-107. -/
def tradeUsd (t : JsVal) : JNum := tradeUsdLoop t usdKeys

/-- The function `passTradeFilters(t)` from src/server.js line 108:
`tradeUsd(t) >= MIN_TRADE_USD`. -/
def passTradeFilters (cfg : Config) (t : JsVal) : Bool :=
  JNum.le (.fin cfg.minTradeUsd) (tradeUsd t)

/-! ### The ingestion loop of `pollPairs` / `pollTrades`
(src/server.js lines 111-151) -/

/-- Per-category mutable state: the seen-set and the ring buffer. -/
structure IngestState where
  seen : List String
  buf : List JsVal

/-- One iteration of the poll loop body, for a record `it`: skip when its
key is seen, skip when it fails the category filter, else mark seen and
push.  Also returns the records actually pushed (none or `[it]`). -/
def ingestOne (pass : JsVal → Bool) (s : IngestState) (it : JsVal) :
    IngestState × List JsVal :=
  let k := hash it
  if s.seen.contains k then (s, [])
  else if !pass it then (s, [])
  else (⟨k :: s.seen, pushRing s.buf it MAX_KEEP⟩, [it])

/-- The whole loop over one fetched batch. -/
def ingestBatch (pass : JsVal → Bool) (s : IngestState) : List JsVal →
    IngestState × List JsVal
  | [] => (s, [])
  | it :: rest =>
    let r := ingestOne pass s it
    let r' := ingestBatch pass r.1 rest
    (r'.1, r.2 ++ r'.2)

/-- Several consecutive poll cycles, each ingesting one batch. -/
def ingestCycles (pass : JsVal → Bool) (s : IngestState) : List (List JsVal) →
    IngestState × List JsVal
  | [] => (s, [])
  | b :: rest =>
    let r := ingestBatch pass s b
    let r' := ingestCycles pass r.1 rest
    (r'.1, r.2 ++ r'.2)

/-! ### Backoff evolution (src/server.js lines 122-126 and 143-147) -/

/-- The backoff ceiling `MAX_BACKOFF_MS = 10 * 60 * 1000`. -/
def MAX_BACKOFF_MS : Nat := 600000

/-- Outcome of one poll attempt. -/
inductive PollOutcome where
  | success
  | rateLimited
  | otherFailure
deriving DecidableEq, Repr

/-- The backoff update of one poll attempt: success resets to 0, HTTP 429
runs `backoffMs = min((backoffMs || seed) * 2, MAX_BACKOFF_MS)` (seed
30000 for pairs, 60000 for trades), any other failure leaves the backoff
unchanged. -/
def stepBackoff (seed b : Nat) : PollOutcome → Nat
  | .success => 0
  | .rateLimited => min ((if b = 0 then seed else b) * 2) MAX_BACKOFF_MS
  | .otherFailure => b

/-- The backoff after a sequence of poll outcomes, starting from the
initial 0. -/
def runBackoff (seed : Nat) (outs : List PollOutcome) : Nat :=
  outs.foldl (stepBackoff seed) 0

/-! ### Endpoint resolver (src/server.js lines 256-271 and 299-337) -/

/-- The new-pairs candidate URLs, in priority order. -/
def NP_CANDIDATES : List String :=
  ["https://public-api.birdeye.so/defi/tokenlist?sort_by=created_at&sort_type=desc&offset=0&limit=50&chain=solana",
   "https://public-api.birdeye.so/public/tokenlist?sort_by=created_at&sort_type=desc&offset=0&limit=50&chain=solana",
   "https://public-api.birdeye.so/tokenlist?sort_by=created_at&sort_type=desc&offset=0&limit=50&chain=solana"]

/-- The large-trades candidate URLs, in priority order. -/
def LT_CANDIDATES : List String :=
  ["https://public-api.birdeye.so/defi/large_trades?chain=solana&offset=0&limit=50",
   "https://public-api.birdeye.so/public/large_trades?chain=solana&offset=0&limit=50",
   "https://public-api.birdeye.so/large_trades?chain=solana&offset=0&limit=50"]

/-- The function `findWorkingUrl(candidates, label)`: probe each candidate in order and
return the first whose probe reports a non-error HTTP status (`res.ok`);
`none` models the thrown "No working endpoint" error.  `probe` abstracts
the network: whether a GET of the URL currently returns `res.ok`. -/
def findWorkingUrl (probe : String → Bool) : List String → Option String
  | [] => none
  | u :: rest => if probe u then some u else findWorkingUrl probe rest

/-- The URL-pinning state of `pollOnce`. -/
structure UrlState where
  np : Option String
  lt : Option String

/-- The URL/resolution behaviour of one `pollOnce` cycle
(src/server.js lines 299-337): resolve each unpinned URL, fetch both; any
failure is caught and resets both pinned URLs to null.  `fetchOk`
abstracts whether `fetchJson` of a URL succeeds this cycle.  The second
component counts how many times the candidate list was probed
(`findWorkingUrl` invocations). -/
def pollOnce (probe fetchOk : String → Bool) (s : UrlState) : UrlState × Nat :=
  let npr : Option String × Nat :=
    match s.np with
    | some u => (some u, 0)
    | none => (findWorkingUrl probe NP_CANDIDATES, 1)
  match npr.1 with
  | none => (⟨none, none⟩, npr.2)
  | some nu =>
    let ltr : Option String × Nat :=
      match s.lt with
      | some u => (some u, 0)
      | none => (findWorkingUrl probe LT_CANDIDATES, 1)
    match ltr.1 with
    | none => (⟨none, none⟩, npr.2 + ltr.2)
    | some lu =>
      if fetchOk nu && fetchOk lu then (⟨some nu, some lu⟩, npr.2 + ltr.2)
      else (⟨none, none⟩, npr.2 + ltr.2)

/-! ### The `/whales` read endpoint (src/server.js lines 174-177) -/

/-- The `/whales` response data: the newest-first view of the trades
buffer (`sliceLast`, default 100), filtered by `tradeUsd(t) >= min`. -/
def whalesData (buf : List JsVal) (min : Q) : List JsVal :=
  (sliceLast buf 100).filter (fun t => JNum.le (.fin min) (tradeUsd t))

/-! ### Definitions used by concrete claim instances -/

/-- A trade whose `tradeUsd` is 5. -/
def qualTrade : JsVal := .obj [("volumeUSD", .num (.fin ⟨5, 1⟩))]

/-- A trade whose `tradeUsd` is 0. -/
def nonqualTrade : JsVal := .obj [("volumeUSD", .num (.fin ⟨0, 1⟩))]

/-- The stages of `pickFirstArray` in the order the code checks them:
the value itself, a `data` array, preferred keys under `data`, any
array-valued key under `data`, preferred keys at top level, any
top-level array-valued key. -/
def pickStages (v : JsVal) : List (Option (List JsVal)) :=
  match v with
  | .arr xs => [some xs]
  | .obj fs =>
    let dataFs :=
      match lookupKey "data" fs with
      | some (.obj dfs) => dfs
      | _ => []
    [(match lookupKey "data" fs with
      | some (.arr xs) => some xs
      | _ => none),
     firstPrefArr dataFs, firstAnyArr dataFs, firstPrefArr fs, firstAnyArr fs]
  | _ => []

/-- The array-shape resolution order asserted by the specification: the
value itself; a top-level `data` array; the preferred key names under
`data` or at top level; then any other array-valued key, first match by
enumeration order.  This follows the claim's wording, to be compared
with `pickFirstArray`. -/
def pickFirstArrayClaimOrder (v : JsVal) : List JsVal :=
  match v with
  | .arr xs => xs
  | .obj fs =>
    let dataFs :=
      match lookupKey "data" fs with
      | some (.obj dfs) => dfs
      | _ => []
    (match lookupKey "data" fs with
     | some (.arr xs) => xs
     | _ =>
       match firstPrefArr dataFs with
       | some xs => xs
       | none =>
         match firstPrefArr fs with
         | some xs => xs
         | none =>
           match firstAnyArr dataFs with
           | some xs => xs
           | none =>
             match firstAnyArr fs with
             | some xs => xs
             | none => [])
  | _ => []

/-- An upstream response with a non-preferred array under `data` and a
preferred array key at top level. -/
def c6input : JsVal :=
  .obj [("data", .obj [("foo", .arr [.num (.fin ⟨1, 1⟩)])]),
        ("items", .arr [.num (.fin ⟨2, 1⟩)])]

/-! ### Helper lemmas -/

/-- Folding `pushRing` from the empty buffer keeps exactly the most
recent `max` items, in insertion order. -/
theorem foldl_pushRing {α : Type} (max : Nat) (hmax : 0 < max) (items : List α) :
    items.foldl (fun a i => pushRing a i max) [] = items.drop (items.length - max) := by
  induction items using List.reverseRecOn with
  | nil => simp
  | append_singleton l x ih =>
    rw [List.foldl_append, ih]
    simp only [List.foldl_cons, List.foldl_nil]
    by_cases h : l.length < max
    · have h0 : l.length - max = 0 := by omega
      have h1 : (l ++ [x]).length - max = 0 := by simp; omega
      rw [h0, List.drop_zero, h1, List.drop_zero]
      have hc : ¬ max < l.length + 1 := by omega
      simp [pushRing, hc]
    · have hge : max ≤ l.length := by omega
      have hlen : (l.drop (l.length - max)).length = max := by simp; omega
      have hne : l.drop (l.length - max) ≠ [] := by
        intro hnil
        rw [hnil] at hlen
        simp at hlen
        omega
      unfold pushRing
      have hcond : max < (l.drop (l.length - max) ++ [x]).length := by
        simp only [List.length_append, hlen]
        simp
      simp only [if_pos hcond]
      obtain ⟨a, A, hA⟩ := List.exists_cons_of_ne_nil hne
      rw [hA]
      simp only [List.cons_append, List.tail_cons]
      have hAtail : A = l.drop (l.length - max + 1) := by
        have ht := List.tail_drop l (l.length - max)
        rw [hA] at ht
        simpa using ht
      rw [hAtail]
      have harith : (l ++ [x]).length - max = l.length - max + 1 := by simp; omega
      rw [harith, List.drop_append_of_le_length (by omega)]

/-- Backoff never exceeds the cap, from any capped starting value. -/
theorem backoff_cap (seed : Nat) (outs : List PollOutcome) (b : Nat)
    (hb : b ≤ MAX_BACKOFF_MS) : outs.foldl (stepBackoff seed) b ≤ MAX_BACKOFF_MS := by
  induction outs generalizing b with
  | nil => simpa using hb
  | cons o rest ih =>
    simp only [List.foldl_cons]
    apply ih
    cases o with
    | success => simp [stepBackoff]
    | rateLimited => simp [stepBackoff]
    | otherFailure => simpa [stepBackoff] using hb

/-! ### Claim C2: ring buffer invariant -/

/-- C2: starting from the empty buffer with capacity `MAX_KEEP = 200`,
any sequence of `pushRing` calls keeps the length at most 200, keeps the
buffer equal to the most recent 200 items in insertion order (oldest
first), and, once more than 200 items have been inserted,
`sliceLast buffer 200` is exactly the last 200 inserted items in reverse
insertion order (newest first). -/
theorem C2_ring_buffer_invariant {α : Type} (items : List α) :
    (items.foldl (fun a i => pushRing a i MAX_KEEP) []).length ≤ MAX_KEEP ∧
    items.foldl (fun a i => pushRing a i MAX_KEEP) [] =
      items.drop (items.length - MAX_KEEP) ∧
    (MAX_KEEP < items.length →
      sliceLast (items.foldl (fun a i => pushRing a i MAX_KEEP) []) MAX_KEEP =
        (items.drop (items.length - MAX_KEEP)).reverse) := by
  have hfold := foldl_pushRing MAX_KEEP (by decide) items
  refine ⟨?_, hfold, ?_⟩
  · rw [hfold]
    simp only [List.length_drop]
    omega
  · intro hlong
    rw [hfold]
    unfold sliceLast
    have h200 : MAX_KEEP ≠ 0 := by decide
    simp only [if_neg h200]
    have hlen : (items.drop (items.length - MAX_KEEP)).length = MAX_KEEP := by
      simp only [List.length_drop]
      omega
    rw [hlen]
    simp

/-- Witness for C2 at 205 concrete insertions. -/
theorem C2_witness :
    MAX_KEEP < (List.range 205).length ∧
    sliceLast ((List.range 205).foldl (fun a i => pushRing a i MAX_KEEP) []) MAX_KEEP =
      ((List.range 205).drop ((List.range 205).length - MAX_KEEP)).reverse :=
  ⟨by decide, (C2_ring_buffer_invariant (List.range 205)).2.2 (by decide)⟩

/-! ### Claim C4: USD-value resolution for trades -/

/-- C4: `tradeUsd` returns the first of the ordered USD candidate keys
whose coerced value is strictly positive and otherwise falls back to
`quantity * price` (zero when non-finite); on
`{ amount: 100, price: 2.5 }` it returns 250. -/
theorem C4_tradeUsd_resolution :
    (∀ t : JsVal,
      tradeUsd t =
        (match usdKeys.findSome? (fun k =>
            let v := toNum (jsGet t k) (.fin ⟨0, 1⟩)
            if JNum.lt (.fin ⟨0, 1⟩) v then some v else none) with
         | some v => v
         | none => tradeUsdFallback t)) ∧
    tradeUsd (.obj [("amount", .num (.fin ⟨100, 1⟩)), ("price", .num (.fin ⟨5, 2⟩))]) =
      .fin ⟨250, 1⟩ := by
  constructor
  · intro t
    show tradeUsdLoop t usdKeys = _
    induction usdKeys with
    | nil => simp [tradeUsdLoop, List.findSome?]
    | cons k rest ih =>
      simp only [tradeUsdLoop, List.findSome?_cons]
      by_cases h : JNum.lt (.fin ⟨0, 1⟩) (toNum (jsGet t k) (.fin ⟨0, 1⟩)) = true
      · simp [h]
      · simp only [Bool.not_eq_true] at h
        simp [h, ih]
  · decide

/-! ### Claim C5: numeric coercion contract -/

/-- C5: with a finite default `d`, `toNum x d` returns `d` whenever
`Number(x)` is NaN or non-finite (in particular when `x` is missing or
non-numeric), returns the finite value of `Number(x)` otherwise, and is
itself always finite. -/
theorem C5_toNum_contract (x : Option JsVal) (d : JNum) (hd : d.isFinite = true) :
    ((jsNumber x).isFinite = false → toNum x d = d) ∧
    ((jsNumber x).isFinite = true → toNum x d = jsNumber x) ∧
    (toNum x d).isFinite = true := by
  unfold toNum
  cases h : (jsNumber x).isFinite <;> simp [h, hd]

/-- Witness for C5 at the non-numeric string "abc" with default 7. -/
theorem C5_witness :
    toNum (some (.str "abc")) (.fin ⟨7, 1⟩) = .fin ⟨7, 1⟩ ∧
    (toNum (some (.str "abc")) (.fin ⟨7, 1⟩)).isFinite = true :=
  ⟨(C5_toNum_contract (some (.str "abc")) (.fin ⟨7, 1⟩) (by decide)).1 (by decide),
   (C5_toNum_contract (some (.str "abc")) (.fin ⟨7, 1⟩) (by decide)).2.2⟩

/-! ### Claim C8: backoff evolution -/

/-- C8: for either category (`seed` is 30000 for pairs, 60000 for
trades), after any sequence of poll outcomes the backoff is at most
`MAX_BACKOFF_MS`; a rate-limited outcome updates it to
`min(backoffMs > 0 ? backoffMs * 2 : initialBackoff, maxBackoff)` with
`initialBackoff = seed * 2`, which never decreases it; and a successful
poll resets it to 0. -/
theorem C8_backoff_evolution (seed : Nat) (outs : List PollOutcome) :
    runBackoff seed outs ≤ MAX_BACKOFF_MS ∧
    stepBackoff seed (runBackoff seed outs) .rateLimited =
      min (if 0 < runBackoff seed outs then runBackoff seed outs * 2 else seed * 2)
        MAX_BACKOFF_MS ∧
    runBackoff seed outs ≤ stepBackoff seed (runBackoff seed outs) .rateLimited ∧
    stepBackoff seed (runBackoff seed outs) .success = 0 := by
  have hcap : runBackoff seed outs ≤ MAX_BACKOFF_MS :=
    backoff_cap seed outs 0 (by simp)
  refine ⟨hcap, ?_, ?_, rfl⟩
  · by_cases h : runBackoff seed outs = 0
    · simp [stepBackoff, h]
    · have hpos : 0 < runBackoff seed outs := Nat.pos_of_ne_zero h
      simp [stepBackoff, h, hpos]
  · by_cases h : runBackoff seed outs = 0
    · simp [stepBackoff, h]
    · simp only [stepBackoff, if_neg h]
      exact Nat.le_min.mpr ⟨by omega, hcap⟩

/-! ### Claim C9: endpoint resolver -/

/-- C9: `findWorkingUrl` probes the candidates in list order and returns
the first whose probe succeeds; it fails (the thrown "no working
endpoint" error, modelled as `none`) exactly when every candidate fails;
and a `pollOnce` cycle that starts with both URLs pinned performs no
probing of the candidate lists and keeps the pinned URLs whenever both
fetches succeed. -/
theorem C9_endpoint_resolver :
    (∀ (probe : String → Bool) (cands : List String),
        findWorkingUrl probe cands = cands.find? probe) ∧
    (∀ (probe : String → Bool) (cands : List String),
        (findWorkingUrl probe cands = none ↔ ∀ u ∈ cands, probe u = false)) ∧
    (∀ (probe fetchOk : String → Bool) (u w : String),
        (pollOnce probe fetchOk ⟨some u, some w⟩).2 = 0) ∧
    (∀ (probe fetchOk : String → Bool) (u w : String),
        (pollOnce probe fetchOk ⟨some u, some w⟩).1 =
          if fetchOk u && fetchOk w then ⟨some u, some w⟩ else ⟨none, none⟩) := by
  have hfind : ∀ (probe : String → Bool) (cands : List String),
      findWorkingUrl probe cands = cands.find? probe := by
    intro probe cands
    induction cands with
    | nil => rfl
    | cons u rest ih =>
      rw [List.find?_cons]
      cases h : probe u <;> simp [findWorkingUrl, h, ih]
  refine ⟨hfind, ?_, ?_, ?_⟩
  · intro probe cands
    rw [hfind]
    simp [List.find?_eq_none]
  · intro probe fetchOk u w
    unfold pollOnce
    cases h : fetchOk u && fetchOk w <;> simp [h]
  · intro probe fetchOk u w
    unfold pollOnce
    cases h : fetchOk u && fetchOk w <;> simp [h]

/-- Witness for C9: with three candidates of which only the second
probes successfully, the resolver returns the second. -/
theorem C9_witness :
    findWorkingUrl (fun u => u == NP_CANDIDATES.get ⟨1, by decide⟩) NP_CANDIDATES =
      some (NP_CANDIDATES.get ⟨1, by decide⟩) := by
  rw [C9_endpoint_resolver.1]
  decide

/-! ### Claim C10: `/whales` filters after slicing -/

/-- C10: the `/whales` response is the newest-first reversal of the last
100 buffered trades, filtered by `tradeUsd ≥ min` afterwards; hence a
qualifying buffered trade outside the most recent 100 is omitted, and
the response can have fewer than 100 items even when more than 100
buffered trades qualify. -/
theorem C10_whales_filters_after_slice :
    (∀ (buf : List JsVal) (min : Q),
        whalesData buf min =
          ((buf.drop (buf.length - 100)).reverse).filter
            (fun t => JNum.le (.fin min) (tradeUsd t))) ∧
    (∀ (buf : List JsVal) (min : Q) (t : JsVal),
        t ∈ buf → JNum.le (.fin min) (tradeUsd t) = true →
        t ∉ buf.drop (buf.length - 100) → t ∉ whalesData buf min) ∧
    (∃ (buf : List JsVal) (min : Q),
        100 < (buf.filter (fun t => JNum.le (.fin min) (tradeUsd t))).length ∧
        (whalesData buf min).length < 100) := by
  refine ⟨?_, ?_, ?_⟩
  · intro buf min
    unfold whalesData sliceLast
    simp
  · intro buf min t _ _ hnot hcontra
    unfold whalesData sliceLast at hcontra
    simp only [if_neg (by decide : ¬ (100 : Nat) = 0)] at hcontra
    exact hnot (List.mem_reverse.mp (List.mem_filter.mp hcontra).1)
  · refine ⟨List.replicate 101 qualTrade ++ List.replicate 99 nonqualTrade, ⟨1, 1⟩, ?_, ?_⟩
    · rw [List.filter_append, List.filter_replicate, List.filter_replicate]
      have hq : (JNum.le (.fin ⟨1, 1⟩) (tradeUsd qualTrade)) = true := by decide
      have hn : (JNum.le (.fin ⟨1, 1⟩) (tradeUsd nonqualTrade)) = false := by decide
      simp [hq, hn]
    · unfold whalesData sliceLast
      have hlen : (List.replicate 101 qualTrade ++ List.replicate 99 nonqualTrade).length = 200 := by
        simp
      rw [hlen]
      simp only [if_neg (by decide : ¬ (100 : Nat) = 0)]
      rw [List.drop_append_of_le_length (by simp), List.drop_replicate]
      rw [List.filter_reverse, List.filter_append, List.filter_replicate, List.filter_replicate]
      have hq : (JNum.le (.fin ⟨1, 1⟩) (tradeUsd qualTrade)) = true := by decide
      have hn : (JNum.le (.fin ⟨1, 1⟩) (tradeUsd nonqualTrade)) = false := by decide
      simp [hq, hn]

/-- Witness for C10: a qualifying trade that is 101st-from-newest is
absent from the response. -/
theorem C10_witness :
    qualTrade ∉ whalesData (qualTrade :: List.replicate 100 nonqualTrade) ⟨1, 1⟩ := by
  apply C10_whales_filters_after_slice.2.1 (qualTrade :: List.replicate 100 nonqualTrade)
    ⟨1, 1⟩ qualTrade (List.mem_cons_self qualTrade (List.replicate 100 nonqualTrade))
    (by decide)
  intro hmem
  have hlen : (qualTrade :: List.replicate 100 nonqualTrade).length - 100 = 1 := by simp
  rw [hlen] at hmem
  simp only [List.drop_succ_cons, List.drop_zero] at hmem
  have heq := List.eq_of_mem_replicate hmem
  simp [qualTrade, nonqualTrade] at heq

/-! ### Claim C7: pair acceptance characterization -/

/-- Failing a strict cross-multiplied comparison is the reverse weak
comparison. -/
theorem q_not_blt_iff (a b : Q) : (Q.blt a b = false) ↔ (Q.ble b a = true) := by
  simp only [Q.blt, Q.ble, decide_eq_false_iff_not, decide_eq_true_eq]
  exact Int.not_lt

/-- Coercion via `toNum` with a finite default is finite. -/
theorem toNum_fin_isFinite (x : Option JsVal) (c : Q) :
    (toNum x (.fin c)).isFinite = true := by
  unfold toNum
  cases h : jsNumber x <;> simp [h, JNum.isFinite]

/-- For a finite or infinite left operand, JavaScript `a < m` is false
exactly when `m <= a` is true. -/
theorem jnum_not_lt_fin {a : JNum} (ha : a.isFinite = true ∨ a = .inf) (m : Q) :
    (JNum.lt a (.fin m) = false) ↔ (JNum.le (.fin m) a = true) := by
  rcases ha with ha | rfl
  · cases a with
    | fin q => exact q_not_blt_iff q m
    | nan => simp [JNum.isFinite] at ha
    | inf => simp [JNum.isFinite] at ha
    | ninf => simp [JNum.isFinite] at ha
  · simp [JNum.lt, JNum.le]

/-- The final step of `minutesAgo` is a finite number or positive
infinity. -/
theorem minutesAgo_shape (now : Q) (t : JNum) :
    (match t with
     | JNum.fin q => JNum.fin ((now.sub q).divN 60000)
     | _ => JNum.inf).isFinite = true ∨
    (match t with
     | JNum.fin q => JNum.fin ((now.sub q).divN 60000)
     | _ => JNum.inf) = JNum.inf := by
  cases t <;> simp [JNum.isFinite]

/-- The value of `minutesAgo` is a finite number or positive infinity, never NaN or
negative infinity. -/
theorem minutesAgo_fin_or_inf (now : Q) (ts : Option JsVal) :
    (minutesAgo now ts).isFinite = true ∨ minutesAgo now ts = .inf :=
  minutesAgo_shape now
    (match ts with
     | some (.num n) => n
     | some v => dateParse (jsToString v)
     | none => .nan)

/-- C7: `passPairFilters` accepts exactly when the extracted liquidity,
24h volume and 24h trade count meet their thresholds and the age clause
holds (`minAgeMinutes == 0` or age at least `minAgeMinutes`), given a
non-negative configured minimum age; and a record whose creation
timestamp cannot be parsed (infinite age) is never rejected by the age
clause. -/
theorem C7_passPairFilters_iff (cfg : Config) (now : Q) (p : JsVal)
    (hage : 0 ≤ cfg.minAgeMinutes.num) :
    (passPairFilters cfg now p = true ↔
      (JNum.le (.fin cfg.minLiqUsd) (pairLiq p) = true ∧
       JNum.le (.fin cfg.min24hVolUsd) (pairVol24 p) = true ∧
       JNum.le (.fin cfg.min24hTrades) (pairTrades24 p) = true ∧
       (cfg.minAgeMinutes.num = 0 ∨
        JNum.le (.fin cfg.minAgeMinutes) (minutesAgo now (pairCreated p)) = true))) ∧
    (minutesAgo now (pairCreated p) = .inf →
      (passPairFilters cfg now p = true ↔
        (JNum.le (.fin cfg.minLiqUsd) (pairLiq p) = true ∧
         JNum.le (.fin cfg.min24hVolUsd) (pairVol24 p) = true ∧
         JNum.le (.fin cfg.min24hTrades) (pairTrades24 p) = true))) := by
  have hfl : (pairLiq p).isFinite = true := toNum_fin_isFinite _ _
  have hfv : (pairVol24 p).isFinite = true := toNum_fin_isFinite _ _
  have hft : (pairTrades24 p).isFinite = true := toNum_fin_isFinite _ _
  have h1 := jnum_not_lt_fin (Or.inl hfl) cfg.minLiqUsd
  have h2 := jnum_not_lt_fin (Or.inl hfv) cfg.min24hVolUsd
  have h3 := jnum_not_lt_fin (Or.inl hft) cfg.min24hTrades
  have h4 := jnum_not_lt_fin (minutesAgo_fin_or_inf now (pairCreated p)) cfg.minAgeMinutes
  have hblt0 : Q.blt ⟨0, 1⟩ cfg.minAgeMinutes = false ↔ cfg.minAgeMinutes.num = 0 := by
    simp only [Q.blt, decide_eq_false_iff_not]
    constructor
    · intro h
      simp only [Int.not_lt] at h
      omega
    · intro h
      simp [h]
  have hchain : (passPairFilters cfg now p = true) ↔
      (JNum.lt (pairLiq p) (.fin cfg.minLiqUsd) = false ∧
       JNum.lt (pairVol24 p) (.fin cfg.min24hVolUsd) = false ∧
       JNum.lt (pairTrades24 p) (.fin cfg.min24hTrades) = false ∧
       (Q.blt ⟨0, 1⟩ cfg.minAgeMinutes = false ∨
        JNum.lt (minutesAgo now (pairCreated p)) (.fin cfg.minAgeMinutes) = false)) := by
    unfold passPairFilters
    cases hc1 : JNum.lt (pairLiq p) (.fin cfg.minLiqUsd) <;>
      cases hc2 : JNum.lt (pairVol24 p) (.fin cfg.min24hVolUsd) <;>
        cases hc3 : JNum.lt (pairTrades24 p) (.fin cfg.min24hTrades) <;>
          cases hc0 : Q.blt ⟨0, 1⟩ cfg.minAgeMinutes <;>
            cases hc4 : JNum.lt (minutesAgo now (pairCreated p)) (.fin cfg.minAgeMinutes) <;>
              simp [hc1, hc2, hc3, hc0, hc4]
  constructor
  · rw [hchain, h1, h2, h3, h4, hblt0]
  · intro hinf
    rw [hchain, h1, h2, h3, hblt0]
    rw [hinf]
    have hle : JNum.lt JNum.inf (.fin cfg.minAgeMinutes) = false := rfl
    simp [hle, h4, hinf]

/-- Witness for C7: with all thresholds zero except a unit trade floor,
the empty record passes the pair filters. -/
theorem C7_witness :
    passPairFilters ⟨⟨0, 1⟩, ⟨1, 1⟩, ⟨0, 1⟩, ⟨0, 1⟩, ⟨0, 1⟩⟩ ⟨0, 1⟩ (.obj []) = true := by
  have h := (C7_passPairFilters_iff ⟨⟨0, 1⟩, ⟨1, 1⟩, ⟨0, 1⟩, ⟨0, 1⟩, ⟨0, 1⟩⟩ ⟨0, 1⟩
    (.obj []) (by decide)).1
  exact h.mpr ⟨by decide, by decide, by decide, Or.inl rfl⟩

/-! ### Claim C1: dedup key determinism -/

/-- Association-list lookup is invariant under permutation of the
bindings when the keys are distinct. -/
theorem lookupKey_perm {f₁ f₂ : List (String × JsVal)} (h : List.Perm f₁ f₂)
    (nd : (f₁.map Prod.fst).Nodup) (k : String) : lookupKey k f₁ = lookupKey k f₂ := by
  induction h with
  | nil => rfl
  | cons x h ih =>
    obtain ⟨a, v⟩ := x
    simp only [List.map_cons, List.nodup_cons] at nd
    by_cases hk : a = k
    · simp [lookupKey, hk]
    · simp only [lookupKey, if_neg hk]
      exact ih nd.2
  | swap x y l =>
    obtain ⟨a, va⟩ := x
    obtain ⟨b, vb⟩ := y
    simp only [List.map_cons, List.nodup_cons, List.mem_cons] at nd
    have hba : ¬ b = a := fun hba => nd.1 (Or.inl hba)
    by_cases hbk : b = k
    · have hak : ¬ a = k := fun hak => hba (hbk.trans hak.symm)
      simp [lookupKey, hbk, hak]
    · by_cases hak : a = k
      · simp [lookupKey, hbk, hak]
      · simp [lookupKey, hbk, hak]
  | trans h₁ h₂ ih₁ ih₂ =>
    exact (ih₁ nd).trans (ih₂ ((h₁.map Prod.fst).nodup nd))

/-- Amended C1: the dedup key is derived from the identity chain
`txHash || signature || tx || pairAddress || mint`, falling back to the
JSON serialization; whenever some identity field is present with a
truthy value, the key is invariant under reordering the record's
(distinct-keyed) fields.  (Without a truthy identity field the fallback
serialization is order-sensitive; see `C1_counterexample`.) -/
theorem C1_hash_deterministic_with_identity
    (f₁ f₂ : List (String × JsVal)) (hperm : List.Perm f₁ f₂)
    (hnd : (f₁.map Prod.fst).Nodup)
    (hid : (firstTruthy (.obj f₁) idKeys).isSome = true) :
    hash (.obj f₁) = hash (.obj f₂) := by
  have hget : ∀ k, lookupKey k f₁ = lookupKey k f₂ := lookupKey_perm hperm hnd
  have hft : firstTruthy (.obj f₁) idKeys = firstTruthy (.obj f₂) idKeys := by
    unfold firstTruthy
    simp only [jsGet, hget]
  unfold hash hashInput
  rw [hft] at hid ⊢
  cases hcase : firstTruthy (.obj f₂) idKeys with
  | none => rw [hcase] at hid; simp at hid
  | some w => rfl

/-- Counterexample to C1 as stated: two records with the same key/value
pairs in different orders and no identity field hash differently,
because `JSON.stringify` is order-sensitive. -/
theorem C1_counterexample :
    List.Perm [("a", JsVal.str "x"), ("b", JsVal.str "y")]
      [("b", JsVal.str "y"), ("a", JsVal.str "x")] ∧
    hash (.obj [("a", .str "x"), ("b", .str "y")]) ≠
      hash (.obj [("b", .str "y"), ("a", .str "x")]) :=
  ⟨List.Perm.swap ("b", JsVal.str "y") ("a", JsVal.str "x") [],
   by decide⟩

/-- Witness for amended C1: reordering a record that carries a truthy
`txHash` leaves the dedup key unchanged. -/
theorem C1_witness :
    hash (.obj [("txHash", .str "t"), ("b", .str "y")]) =
      hash (.obj [("b", .str "y"), ("txHash", .str "t")]) :=
  C1_hash_deterministic_with_identity
    [("txHash", .str "t"), ("b", .str "y")] [("b", .str "y"), ("txHash", .str "t")]
    (List.Perm.swap ("b", JsVal.str "y") ("txHash", JsVal.str "t") [])
    (by decide) (by decide)

/-! ### Claim C3: idempotent ingestion -/

/-- The seen-set only grows across one loop iteration. -/
theorem ingestOne_seen_mono (pass : JsVal → Bool) (s : IngestState) (it : JsVal)
    (k : String) (h : k ∈ s.seen) : k ∈ (ingestOne pass s it).1.seen := by
  unfold ingestOne
  by_cases h1 : hash it ∈ s.seen
  · simp [h1, h]
  · by_cases h2 : pass it = true <;> simp [h1, h2, h]

/-- An item stored by one loop iteration had an unseen key. -/
theorem ingestOne_stored_fresh (pass : JsVal → Bool) (s : IngestState) (it : JsVal) :
    ∀ it' ∈ (ingestOne pass s it).2, hash it' ∉ s.seen := by
  unfold ingestOne
  by_cases h1 : hash it ∈ s.seen
  · simp [h1]
  · by_cases h2 : pass it = true
    · intro it' hmem
      simp [h1, h2] at hmem
      subst hmem
      exact h1
    · simp [h1, h2]

/-- The seen-set only grows across one batch. -/
theorem ingestBatch_seen_mono (pass : JsVal → Bool) (b : List JsVal) :
    ∀ (s : IngestState) (k : String), k ∈ s.seen → k ∈ (ingestBatch pass s b).1.seen := by
  induction b with
  | nil => intro s k h; simpa [ingestBatch] using h
  | cons it rest ih =>
    intro s k h
    simp only [ingestBatch]
    exact ih _ _ (ingestOne_seen_mono pass s it k h)

/-- No item stored during a batch carries a key that was already seen
when the batch started. -/
theorem ingestBatch_no_seen_key (pass : JsVal → Bool) (b : List JsVal) :
    ∀ (s : IngestState) (k : String), k ∈ s.seen →
      ∀ it' ∈ (ingestBatch pass s b).2, hash it' ≠ k := by
  induction b with
  | nil => intro s k _ it' hmem; simp [ingestBatch] at hmem
  | cons it rest ih =>
    intro s k h it' hmem
    simp only [ingestBatch, List.mem_append] at hmem
    rcases hmem with hm | hm
    · have hfresh := ingestOne_stored_fresh pass s it it' hm
      intro heq
      rw [heq] at hfresh
      exact hfresh h
    · exact ih _ k (ingestOne_seen_mono pass s it k h) it' hm

/-- The seen-set only grows across poll cycles. -/
theorem ingestCycles_seen_mono (pass : JsVal → Bool) (bs : List (List JsVal)) :
    ∀ (s : IngestState) (k : String), k ∈ s.seen → k ∈ (ingestCycles pass s bs).1.seen := by
  induction bs with
  | nil => intro s k h; simpa [ingestCycles] using h
  | cons b rest ih =>
    intro s k h
    simp only [ingestCycles]
    exact ih _ _ (ingestBatch_seen_mono pass b s k h)

/-- C3: once a key is in a category's seen-set, no record with that
dedup key is ever pushed into that category's ring buffer again, over any
further sequence of poll cycles; and a trade arriving in two consecutive
poll cycles whose key is fresh and which passes the trade filter is
stored exactly once. -/
theorem C3_idempotent_ingestion :
    (∀ (pass : JsVal → Bool) (s : IngestState) (batches : List (List JsVal)) (k : String),
        k ∈ s.seen → ∀ it ∈ (ingestCycles pass s batches).2, hash it ≠ k) ∧
    (∀ (cfg : Config) (s : IngestState) (t : JsVal),
        hash t ∉ s.seen → passTradeFilters cfg t = true →
        ((ingestCycles (passTradeFilters cfg) s [[t], [t]]).2.countP
          (fun it => hash it == hash t)) = 1) := by
  constructor
  · intro pass s batches k hk
    induction batches generalizing s with
    | nil => intro it hmem; simp [ingestCycles] at hmem
    | cons b rest ih =>
      intro it hmem
      simp only [ingestCycles, List.mem_append] at hmem
      rcases hmem with hm | hm
      · exact ingestBatch_no_seen_key pass b s k hk it hm
      · exact ih _ (ingestBatch_seen_mono pass b s k hk) it hm
  · intro cfg s t hfresh hpass
    simp [ingestCycles, ingestBatch, ingestOne, hfresh, hpass]

/-- Witness for C3: the trade `{ txHash: "abc", volumeUSD: 9000 }`
delivered by two consecutive poll cycles is stored exactly once. -/
theorem C3_witness :
    ((ingestCycles (passTradeFilters ⟨⟨0, 1⟩, ⟨1, 1⟩, ⟨0, 1⟩, ⟨0, 1⟩, ⟨0, 1⟩⟩) ⟨[], []⟩
        [[.obj [("txHash", .str "abc"), ("volumeUSD", .num (.fin ⟨9000, 1⟩))]],
         [.obj [("txHash", .str "abc"), ("volumeUSD", .num (.fin ⟨9000, 1⟩))]]]).2.countP
      (fun it => hash it ==
        hash (.obj [("txHash", .str "abc"), ("volumeUSD", .num (.fin ⟨9000, 1⟩))]))) = 1 :=
  C3_idempotent_ingestion.2 ⟨⟨0, 1⟩, ⟨1, 1⟩, ⟨0, 1⟩, ⟨0, 1⟩, ⟨0, 1⟩⟩ ⟨[], []⟩
    (.obj [("txHash", .str "abc"), ("volumeUSD", .num (.fin ⟨9000, 1⟩))])
    (by simp) (by decide)

/-! ### Claim C6: array-shape resolution order -/

/-- No preferred array key in the empty object. -/
theorem firstPrefArr_nil : firstPrefArr [] = none := rfl

/-- No array-valued key in the empty object. -/
theorem firstAnyArr_nil : firstAnyArr [] = none := rfl

/-- Amended C6: `pickFirstArray` returns the first array found by
checking, in this exact order: the value itself; a top-level `data`
array; the preferred keys under `data`; any other array-valued key under
`data`; the preferred keys at top level; any other top-level array-valued
key — and the empty sequence when no stage finds an array (the function
is total, so it never throws). -/
theorem C6_pickFirstArray_order (v : JsVal) :
    pickFirstArray v = ((pickStages v).findSome? id).getD [] := by
  cases v with
  | arr xs => rfl
  | obj fs =>
    simp only [pickFirstArray, pickStages]
    cases hd : lookupKey "data" fs with
    | none =>
      cases hp : firstPrefArr fs <;> cases ha : firstAnyArr fs <;>
        simp [topLevelArr, hp, ha, firstPrefArr_nil, firstAnyArr_nil, List.findSome?]
    | some dv =>
      cases dv with
      | arr xs => simp [List.findSome?]
      | obj dfs =>
        cases hpd : firstPrefArr dfs with
        | some xs => simp [hpd, List.findSome?]
        | none =>
          cases had : firstAnyArr dfs with
          | some xs => simp [hpd, had, List.findSome?]
          | none =>
            cases hp : firstPrefArr fs <;> cases ha : firstAnyArr fs <;>
              simp [topLevelArr, hpd, had, hp, ha, List.findSome?]
      | null =>
        cases hp : firstPrefArr fs <;> cases ha : firstAnyArr fs <;>
          simp [topLevelArr, hp, ha, firstPrefArr_nil, firstAnyArr_nil, List.findSome?]
      | bool b =>
        cases hp : firstPrefArr fs <;> cases ha : firstAnyArr fs <;>
          simp [topLevelArr, hp, ha, firstPrefArr_nil, firstAnyArr_nil, List.findSome?]
      | num n =>
        cases hp : firstPrefArr fs <;> cases ha : firstAnyArr fs <;>
          simp [topLevelArr, hp, ha, firstPrefArr_nil, firstAnyArr_nil, List.findSome?]
      | str s =>
        cases hp : firstPrefArr fs <;> cases ha : firstAnyArr fs <;>
          simp [topLevelArr, hp, ha, firstPrefArr_nil, firstAnyArr_nil, List.findSome?]
  | null => rfl
  | bool b => rfl
  | num n => rfl
  | str s => rfl

/-- Counterexample to C6 as stated: on a response with a non-preferred
array under `data` and a preferred `items` array at top level, the code
returns the `data`-nested array, while the claimed order (preferred keys
before any other array-valued key) returns the top-level `items`
array. -/
theorem C6_counterexample :
    pickFirstArray c6input = [.num (.fin ⟨1, 1⟩)] ∧
    pickFirstArrayClaimOrder c6input = [.num (.fin ⟨2, 1⟩)] ∧
    pickFirstArray c6input ≠ pickFirstArrayClaimOrder c6input := by
  refine ⟨rfl, rfl, ?_⟩
  intro h
  rw [show pickFirstArray c6input = [.num (.fin ⟨1, 1⟩)] from rfl,
      show pickFirstArrayClaimOrder c6input = [.num (.fin ⟨2, 1⟩)] from rfl] at h
  simp at h

end SolFeed
